import Mathlib

/-!
Shallow embedding of the equity-screener integrity-report and symbol-resolution
logic (streamlit_app.reports.{fields,models,checks,data_provider,renderers} and
streamlit_app.analyses.equity_analysis.{tradingview,formatters}), together with
theorems settling the specification claims about it.

Python `Decimal`/numeric values are modelled as `ℚ`, `None` as `Option.none`,
tuples/lists as `List`, and `dict` (insertion-ordered) as an association list.
-/

namespace EquityScreener

/-- Identity attribute group of a canonical equity (7 independently nullable
fields), mirroring `CanonicalEquity.identity` as consumed by the report code. -/
structure Identity where
  name : Option String
  symbol : Option String
  share_class_figi : Option String
  isin : Option String
  cusip : Option String
  cik : Option String
  lei : Option String
deriving DecidableEq, Repr

/-- Financial attribute group of a canonical equity (31 independently nullable
fields), mirroring `CanonicalEquity.financials` as consumed by the report code. -/
structure Financials where
  mics : Option String
  currency : Option String
  last_price : Option ℚ
  market_cap : Option ℚ
  fifty_two_week_min : Option ℚ
  fifty_two_week_max : Option ℚ
  dividend_yield : Option ℚ
  market_volume : Option ℚ
  held_insiders : Option ℚ
  held_institutions : Option ℚ
  short_interest : Option ℚ
  share_float : Option ℚ
  shares_outstanding : Option ℚ
  revenue_per_share : Option ℚ
  profit_margin : Option ℚ
  gross_margin : Option ℚ
  operating_margin : Option ℚ
  free_cash_flow : Option ℚ
  operating_cash_flow : Option ℚ
  return_on_equity : Option ℚ
  return_on_assets : Option ℚ
  performance_1_year : Option ℚ
  total_debt : Option ℚ
  revenue : Option ℚ
  ebitda : Option ℚ
  trailing_pe : Option ℚ
  price_to_book : Option ℚ
  trailing_eps : Option ℚ
  analyst_rating : Option String
  industry : Option String
  sector : Option String
deriving DecidableEq, Repr

/-- A canonical equity record as consumed by the reporting code: identity and
financials attribute groups plus the snapshot date. -/
structure CanonicalEquity where
  identity : Identity
  financials : Financials
  snapshot_date : Option String
deriving DecidableEq, Repr

/-- Dynamic attribute presence on the identity group: embeds
`getattr(equity.identity, attr, None) is not None` for the attribute names the
report uses (an unknown attribute yields the `None` default, hence `false`). -/
def idHas (i : Identity) (attr : String) : Bool :=
  match attr with
  | "name" => i.name.isSome
  | "symbol" => i.symbol.isSome
  | "share_class_figi" => i.share_class_figi.isSome
  | "isin" => i.isin.isSome
  | "cusip" => i.cusip.isSome
  | "cik" => i.cik.isSome
  | "lei" => i.lei.isSome
  | _ => false

/-- Dynamic attribute presence on the financials group: embeds
`getattr(equity.financials, attr, None) is not None`. -/
def finHas (f : Financials) (attr : String) : Bool :=
  match attr with
  | "mics" => f.mics.isSome
  | "currency" => f.currency.isSome
  | "last_price" => f.last_price.isSome
  | "market_cap" => f.market_cap.isSome
  | "fifty_two_week_min" => f.fifty_two_week_min.isSome
  | "fifty_two_week_max" => f.fifty_two_week_max.isSome
  | "dividend_yield" => f.dividend_yield.isSome
  | "market_volume" => f.market_volume.isSome
  | "held_insiders" => f.held_insiders.isSome
  | "held_institutions" => f.held_institutions.isSome
  | "short_interest" => f.short_interest.isSome
  | "share_float" => f.share_float.isSome
  | "shares_outstanding" => f.shares_outstanding.isSome
  | "revenue_per_share" => f.revenue_per_share.isSome
  | "profit_margin" => f.profit_margin.isSome
  | "gross_margin" => f.gross_margin.isSome
  | "operating_margin" => f.operating_margin.isSome
  | "free_cash_flow" => f.free_cash_flow.isSome
  | "operating_cash_flow" => f.operating_cash_flow.isSome
  | "return_on_equity" => f.return_on_equity.isSome
  | "return_on_assets" => f.return_on_assets.isSome
  | "performance_1_year" => f.performance_1_year.isSome
  | "total_debt" => f.total_debt.isSome
  | "revenue" => f.revenue.isSome
  | "ebitda" => f.ebitda.isSome
  | "trailing_pe" => f.trailing_pe.isSome
  | "price_to_book" => f.price_to_book.isSome
  | "trailing_eps" => f.trailing_eps.isSome
  | "analyst_rating" => f.analyst_rating.isSome
  | "industry" => f.industry.isSome
  | "sector" => f.sector.isSome
  | _ => false

/-- fields.py `has_field`: whether a financials attribute is populated
(`getattr(equity.financials, attr, None) is not None`). -/
def has_field (equity : CanonicalEquity) (attr : String) : Bool :=
  finHas equity.financials attr

/-- Two-level dynamic attribute presence, embedding
`getattr(getattr(eq, group, None), attr, None) is not None` from
data_provider.py `_count_populated` (an unknown group gives `None`, on which
any attribute lookup yields the `None` default). -/
def group_has (eq : CanonicalEquity) (group attr : String) : Bool :=
  match group with
  | "identity" => idHas eq.identity attr
  | "financials" => finHas eq.financials attr
  | _ => false

/-- fields.py `identity_fields`: the 7 identity field specifications,
pairs of (attribute name, display label). -/
def identity_fields : List (String × String) :=
  [("name", "Name"),
   ("symbol", "Symbol"),
   ("share_class_figi", "FIGI"),
   ("isin", "ISIN"),
   ("cusip", "CUSIP"),
   ("cik", "CIK"),
   ("lei", "LEI")]

/-- fields.py `financial_fields`: the 31 financial field specifications,
pairs of (attribute name, display label). -/
def financial_fields : List (String × String) :=
  [("mics", "MICs"),
   ("currency", "Currency"),
   ("last_price", "Last Price"),
   ("market_cap", "Market Cap"),
   ("fifty_two_week_min", "52W Min"),
   ("fifty_two_week_max", "52W Max"),
   ("dividend_yield", "Dividend Yield"),
   ("market_volume", "Market Volume"),
   ("held_insiders", "Held Insiders"),
   ("held_institutions", "Held Institutions"),
   ("short_interest", "Short Interest"),
   ("share_float", "Share Float"),
   ("shares_outstanding", "Shares Outstanding"),
   ("revenue_per_share", "Revenue/Share"),
   ("profit_margin", "Profit Margin"),
   ("gross_margin", "Gross Margin"),
   ("operating_margin", "Operating Margin"),
   ("free_cash_flow", "Free Cash Flow"),
   ("operating_cash_flow", "Operating Cash Flow"),
   ("return_on_equity", "ROE"),
   ("return_on_assets", "ROA"),
   ("performance_1_year", "1Y Performance"),
   ("total_debt", "Total Debt"),
   ("revenue", "Revenue"),
   ("ebitda", "EBITDA"),
   ("trailing_pe", "Trailing P/E"),
   ("price_to_book", "Price/Book"),
   ("trailing_eps", "Trailing EPS"),
   ("analyst_rating", "Analyst Rating"),
   ("industry", "Industry"),
   ("sector", "Sector")]

/-- fields.py `heatmap_fields`: financial fields excluding those trivially at
100% per sector ('industry', 'sector', 'currency'). -/
def heatmap_fields : List (String × String) :=
  financial_fields.filter
    (fun p => !(["industry", "sector", "currency"].contains p.1))

/-- models.py `FieldCoverage`: coverage statistics for a single field. -/
structure FieldCoverage where
  label : String
  count : Nat
  total : Nat
deriving DecidableEq, Repr

/-- models.py `ConsistencyFinding`: a single consistency observation. -/
structure ConsistencyFinding where
  description : String
  count : Nat
  total : Nat
deriving DecidableEq, Repr

/-- models.py `MarketCapDistribution`: summary statistics for the market
capitalisation distribution. -/
structure MarketCapDistribution where
  count : Nat
  median : ℚ
  mean : ℚ
  values : List ℚ
deriving DecidableEq, Repr

/-- models.py `CompletenessDistribution`: summary statistics for the per-equity
field completeness distribution. -/
structure CompletenessDistribution where
  count : Nat
  median : ℚ
  mean : ℚ
  values : List Nat
deriving DecidableEq, Repr

/-- models.py `SectorFieldCoverage`: coverage percentages per sector/field. -/
structure SectorFieldCoverage where
  sectors : List String
  fields : List String
  percentages : List (List ℚ)
deriving DecidableEq, Repr

/-- data_provider.py `_count_populated`: number of equities where the given
nested attribute is not None. -/
def _count_populated (equities : List CanonicalEquity) (group attr : String) :
    Nat :=
  equities.countP (fun eq => group_has eq group attr)

/-- data_provider.py `_compute_coverage`: per-field non-None counts across a
list of equities, with total the list length. -/
def _compute_coverage (equities : List CanonicalEquity) (group : String)
    (fields : List (String × String)) : List FieldCoverage :=
  fields.map (fun p =>
    ⟨p.2, _count_populated equities group p.1, equities.length⟩)

/-- checks.py `_finding`: build a `ConsistencyFinding` by counting equities
matched by the predicate. -/
def _finding (description : String) (equities : List CanonicalEquity)
    (total : Nat) (predicate : CanonicalEquity → Bool) : ConsistencyFinding :=
  ⟨description, equities.countP predicate, total⟩

/-- checks.py `_profit_exceeds_gross`: both margins present and profit
exceeds gross. -/
def _profit_exceeds_gross (equity : CanonicalEquity) : Bool :=
  match equity.financials.profit_margin, equity.financials.gross_margin with
  | some profit, some gross => decide (profit > gross)
  | _, _ => false

/-- checks.py `_operating_exceeds_gross`: both margins present and operating
exceeds gross. -/
def _operating_exceeds_gross (equity : CanonicalEquity) : Bool :=
  match equity.financials.operating_margin, equity.financials.gross_margin with
  | some operating, some gross => decide (operating > gross)
  | _, _ => false

/-- checks.py `_has_extreme_pe`: trailing P/E present with magnitude above
1000. -/
def _has_extreme_pe (equity : CanonicalEquity) : Bool :=
  match equity.financials.trailing_pe with
  | some pe => decide (|pe| > 1000)
  | none => false

/-- checks.py `_has_inverted_range`: both 52-week bounds present and min
exceeds max. -/
def _has_inverted_range (equity : CanonicalEquity) : Bool :=
  match equity.financials.fifty_two_week_min,
      equity.financials.fifty_two_week_max with
  | some min_val, some max_val => decide (min_val > max_val)
  | _, _ => false

/-- checks.py `_price_outside_range`: price, min and max all present and the
price below min or above max with a 5% tolerance (`Decimal("1.05")`). -/
def _price_outside_range (equity : CanonicalEquity) : Bool :=
  match equity.financials.last_price, equity.financials.fifty_two_week_min,
      equity.financials.fifty_two_week_max with
  | some price, some min_val, some max_val =>
      decide (price < min_val ∨ price > max_val * (1.05 : ℚ))
  | _, _, _ => false

/-- checks.py `_holdings_exceed`: both holdings present and their sum above
`Decimal("1.05")`. -/
def _holdings_exceed (equity : CanonicalEquity) : Bool :=
  match equity.financials.held_insiders,
      equity.financials.held_institutions with
  | some insiders, some institutions =>
      decide (insiders + institutions > (1.05 : ℚ))
  | _, _ => false

/-- checks.py `_has_extreme_return`: ROE or ROA present with magnitude above
the threshold 5 (±500%). -/
def _has_extreme_return (equity : CanonicalEquity) : Bool :=
  match equity.financials.return_on_equity with
  | some roe =>
      if decide (|roe| > 5) then true
      else
        match equity.financials.return_on_assets with
        | some roa => decide (|roa| > 5)
        | none => false
  | none =>
      match equity.financials.return_on_assets with
      | some roa => decide (|roa| > 5)
      | none => false

/-- checks.py: the extreme dividend yield predicate (inline lambda):
dividend yield present and greater than 1. -/
def _dividend_yield_extreme (equity : CanonicalEquity) : Bool :=
  match equity.financials.dividend_yield with
  | some dy => decide (dy > 1)
  | none => false

/-- checks.py `run_cross_field_checks`: the four presence-pairing findings. -/
def run_cross_field_checks (equities : List CanonicalEquity) :
    List ConsistencyFinding :=
  let total := equities.length
  [_finding "Price recorded without market cap" equities total
     (fun eq => has_field eq "last_price" && !(has_field eq "market_cap")),
   _finding "Market cap recorded without price" equities total
     (fun eq => has_field eq "market_cap" && !(has_field eq "last_price")),
   _finding "Price and market cap both missing" equities total
     (fun eq => !(has_field eq "last_price") && !(has_field eq "market_cap")),
   _finding "Partial 52-week range" equities total
     (fun eq =>
       has_field eq "fifty_two_week_min" != has_field eq "fifty_two_week_max")]

/-- checks.py `run_ratio_checks`: the five ratio/dependency findings. -/
def run_ratio_checks (equities : List CanonicalEquity) :
    List ConsistencyFinding :=
  let total := equities.length
  [_finding "Profit margin exceeds gross margin" equities total
     _profit_exceeds_gross,
   _finding "Operating margin exceeds gross margin" equities total
     _operating_exceeds_gross,
   _finding "Trailing P/E without EPS" equities total
     (fun eq => has_field eq "trailing_pe" && !(has_field eq "trailing_eps")),
   _finding "Revenue/share without revenue" equities total
     (fun eq => has_field eq "revenue_per_share" && !(has_field eq "revenue")),
   _finding "Price/book without price" equities total
     (fun eq => has_field eq "price_to_book" && !(has_field eq "last_price"))]

/-- checks.py `run_plausibility_checks`: the six range-plausibility findings. -/
def run_plausibility_checks (equities : List CanonicalEquity) :
    List ConsistencyFinding :=
  let total := equities.length
  [_finding "52-week min exceeds max" equities total _has_inverted_range,
   _finding "Price outside 52-week range" equities total _price_outside_range,
   _finding "Extreme dividend yield (>100%)" equities total
     _dividend_yield_extreme,
   _finding "Extreme trailing P/E (±1000)" equities total _has_extreme_pe,
   _finding "Holdings exceed 100%" equities total _holdings_exceed,
   _finding "Extreme ROE or ROA (±500%)" equities total _has_extreme_return]

/-- renderers.py `_build_coverage_dataframe`: rows of (Field, Coverage) where
Coverage is `count / total * 100` (or 0 when total is 0). -/
def _build_coverage_dataframe (coverage : List FieldCoverage) :
    List (String × ℚ) :=
  coverage.map (fun fc =>
    (fc.label, if fc.total = 0 then 0 else (fc.count : ℚ) / fc.total * 100))

/-- renderers.py `_overall_coverage`: summed counts over summed totals, times
100; 0.0 when the summed total is zero. -/
def _overall_coverage (coverage : List FieldCoverage) : ℚ :=
  let total_count := (coverage.map (fun fc => fc.count)).sum
  let total_possible := (coverage.map (fun fc => fc.total)).sum
  if total_possible = 0 then 0
  else (total_count : ℚ) / total_possible * 100

/-- renderers.py `_build_consistency_dataframe`: rows of (Check, Affected)
where Affected is `count / total * 100` (or 0 when total is 0). -/
def _build_consistency_dataframe (findings : List ConsistencyFinding) :
    List (String × ℚ) :=
  findings.map (fun f =>
    (f.description, if f.total = 0 then 0 else (f.count : ℚ) / f.total * 100))

/-- data_provider.py `_extract_market_caps`: values of equities whose market
cap is present and positive. -/
def _extract_market_caps (equities : List CanonicalEquity) : List ℚ :=
  equities.filterMap (fun eq =>
    match eq.financials.market_cap with
    | some mc => if decide (0 < mc) then some mc else none
    | none => none)

/-- Modelled from the spec: Python `statistics.median` — sort the values and
take the middle element (odd length) or the average of the two middle
elements (even length). Only ever invoked on non-empty lists by the callers
embedded here, matching the guards in data_provider.py. -/
def median_stat (values : List ℚ) : ℚ :=
  let s := values.mergeSort (fun a b => decide (a ≤ b))
  let n := s.length
  if n % 2 = 1 then s.getD (n / 2) 0
  else (s.getD (n / 2 - 1) 0 + s.getD (n / 2) 0) / 2

/-- Modelled from the spec: Python `statistics.mean` — arithmetic mean of a
non-empty list of values. -/
def mean_stat (values : List ℚ) : ℚ :=
  values.sum / values.length

/-- data_provider.py `load_market_cap_distribution`, as a function of the
loaded equities: filter to positive market caps, then count/median/mean
(median and mean guarded to 0 on an empty value list). -/
def load_market_cap_distribution (equities : List CanonicalEquity) :
    MarketCapDistribution :=
  let values := _extract_market_caps equities
  ⟨values.length,
   if values.isEmpty then 0 else median_stat values,
   if values.isEmpty then 0 else mean_stat values,
   values⟩

/-- data_provider.py `_count_equity_fields`: number of populated financial
fields for one equity. -/
def _count_equity_fields (equity : CanonicalEquity)
    (fields : List (String × String)) : Nat :=
  fields.countP (fun p => has_field equity p.1)

/-- data_provider.py `_compute_completeness_scores`: per-equity populated
financial-field counts. -/
def _compute_completeness_scores (equities : List CanonicalEquity) :
    List Nat :=
  equities.map (fun eq => _count_equity_fields eq financial_fields)

/-- data_provider.py `load_completeness_distribution`, as a function of the
loaded equities: per-equity completeness scores, then count/median/mean
(median and mean guarded to 0 on an empty score list). -/
def load_completeness_distribution (equities : List CanonicalEquity) :
    CompletenessDistribution :=
  let scores := _compute_completeness_scores equities
  ⟨scores.length,
   if scores.isEmpty then 0 else median_stat (scores.map (fun n => (n : ℚ))),
   if scores.isEmpty then 0 else mean_stat (scores.map (fun n => (n : ℚ))),
   scores⟩

/-- data_provider.py `_mean`: arithmetic mean of a list, 0.0 when empty. -/
def _mean (values : List ℚ) : ℚ :=
  if values.isEmpty then 0 else values.sum / values.length

/-- data_provider.py `_field_coverage_pct`: percentage of equities with the
field populated, 0.0 when the group total is zero. -/
def _field_coverage_pct (equities : List CanonicalEquity) (attr : String)
    (total : Nat) : ℚ :=
  if total = 0 then 0
  else (equities.countP (fun eq => has_field eq attr) : ℚ) / total * 100

/-- data_provider.py `_sector_coverage_row`: per-field coverage percentages
for a sector group. -/
def _sector_coverage_row (equities : List CanonicalEquity)
    (fields : List (String × String)) : List ℚ :=
  fields.map (fun p => _field_coverage_pct equities p.1 equities.length)

/-- Helper embedding `grouped.setdefault(s, []).append(eq)` on an
insertion-ordered association list: append to the entry with key `s`,
creating it at the end when absent. -/
def insert_grouped (grouped : List (String × List CanonicalEquity))
    (s : String) (eq : CanonicalEquity) :
    List (String × List CanonicalEquity) :=
  match grouped with
  | [] => [(s, [eq])]
  | (k, g) :: rest =>
      if k = s then (k, g ++ [eq]) :: rest
      else (k, g) :: insert_grouped rest s eq

/-- data_provider.py `_group_by_sector`: group equities by sector (dict in
insertion order), excluding equities whose sector is None. -/
def _group_by_sector (equities : List CanonicalEquity) :
    List (String × List CanonicalEquity) :=
  equities.foldl
    (fun grouped eq =>
      match eq.financials.sector with
      | some s => insert_grouped grouped s eq
      | none => grouped)
    []

/-- data_provider.py `_rank_columns_by_coverage`: column indices sorted by
mean coverage descending (stable on ties, as Python `sorted` with
`reverse=True`). -/
def _rank_columns_by_coverage (rows : List (List ℚ)) : List Nat :=
  match rows with
  | [] => []
  | r0 :: _ =>
      let num_cols := r0.length
      let col_means := (List.range num_cols).map (fun c =>
        (rows.map (fun row => row.getD c 0)).sum / (rows.length : ℚ))
      (col_means.enum.mergeSort (fun a b => decide (b.2 ≤ a.2))).map
        (fun p => p.1)

/-- data_provider.py `load_sector_field_coverage`, as a function of the loaded
equities: group by sector, compute per-field coverage rows, rank sectors
ascending by mean row coverage and columns descending by mean column
coverage, and assemble the reordered matrix. -/
def load_sector_field_coverage (equities : List CanonicalEquity) :
    SectorFieldCoverage :=
  let grouped := _group_by_sector equities
  let fields := heatmap_fields
  let sector_rows := grouped.map (fun p => (p.1, _sector_coverage_row p.2 fields))
  let ranked := sector_rows.mergeSort
    (fun a b => decide (_mean a.2 ≤ _mean b.2))
  let col_order := _rank_columns_by_coverage (ranked.map (fun p => p.2))
  ⟨ranked.map (fun p => p.1),
   col_order.map (fun i => (fields.getD i ("", "")).2),
   ranked.map (fun p => col_order.map (fun i => p.2.getD i 0))⟩

/-- tradingview.py `_mic_to_tv_market_map`: the static MIC-to-market table. -/
def _mic_to_tv_market_map : List (String × String) :=
  [("XNYS", "america"), ("XNAS", "america"), ("XASE", "america"),
   ("ARCX", "america"), ("BATS", "america"), ("IEXG", "america"),
   ("XLON", "uk"), ("XETR", "germany"), ("XFRA", "germany"),
   ("XPAR", "france"), ("XAMS", "netherlands"), ("XBRU", "belgium"),
   ("XLIS", "portugal"), ("XMIL", "italy"), ("XMAD", "spain"),
   ("XSWX", "switzerland"), ("XSTO", "sweden"), ("XCSE", "denmark"),
   ("XOSL", "norway"), ("XHEL", "finland"), ("XWBO", "austria"),
   ("XTKS", "japan"), ("XHKG", "hongkong"), ("XSHG", "china"),
   ("XSHE", "china"), ("XKRX", "korea"), ("XTAI", "taiwan"),
   ("XASX", "australia"), ("XNZE", "newzealand"), ("XSES", "singapore"),
   ("XBOM", "india"), ("XNSE", "india"), ("XTSE", "canada"),
   ("BVMF", "brazil"), ("XMEX", "mexico"), ("XJSE", "rsa")]

/-- tradingview.py `_mics_to_tv_markets`: map comma-separated MICs through the
static table, dropping unknown codes and deduplicating with first-occurrence
order preserved (`dict.fromkeys`); empty/absent input gives an empty list. -/
def _mics_to_tv_markets (mics : Option String) : List String :=
  match mics with
  | none => []
  | some s =>
      if s = "" then []
      else
        ((s.splitOn ",").filterMap (fun mic =>
          _mic_to_tv_market_map.lookup mic.trim)).eraseDups

/-- A scanner oracle abstracting tradingview.py `_try_scan`: given the filter
field, query, operation and market list, it yields the top row's symbol, or
`none` on any network/response failure or empty result set. -/
def ScanOracle : Type :=
  String → String → String → List String → Option String

/-- The loop body of tradingview.py `resolve_tv_symbol`: walk the search
tiers in order, skipping tiers with an empty query, and return the first
scan result; fall back to the original symbol when all tiers fail. -/
def resolve_loop (scan : ScanOracle) (markets : List String) :
    List (String × String × String) → String → String
  | [], symbol => symbol
  | (field, query, operation) :: rest, symbol =>
      if query = "" then resolve_loop scan markets rest symbol
      else
        match scan field query operation markets with
        | some result => result
        | none => resolve_loop scan markets rest symbol

/-- tradingview.py `resolve_tv_symbol`: priority-ordered scanner searches
(exact ticker, fuzzy name, fuzzy ticker), with the scanner call abstracted
as an oracle. -/
def resolve_tv_symbol (scan : ScanOracle) (symbol equity_name : String)
    (mics : Option String) : String :=
  let markets := _mics_to_tv_markets mics
  let searches :=
    [("name", symbol, "equal"),
     ("description", equity_name, "match"),
     ("name", symbol, "match")]
  resolve_loop scan markets searches symbol

/-- Number of scanner invocations performed by the `resolve_tv_symbol` loop:
one per non-skipped tier up to and including the first hit. -/
def resolve_scan_count (scan : ScanOracle) (markets : List String) :
    List (String × String × String) → Nat
  | [] => 0
  | (field, query, operation) :: rest =>
      if query = "" then resolve_scan_count scan markets rest
      else
        match scan field query operation markets with
        | some _ => 1
        | none => 1 + resolve_scan_count scan markets rest

/-- A Python value of static type `float | str | None`, the argument type of
formatters.py `fmt_number` and `fmt_ratio`. -/
inductive PyVal where
  | num (x : ℚ)
  | str (s : String)
  | none
deriving DecidableEq, Repr

/-- All characters are decimal digits and the list is non-empty: the shape
accepted for a digit run by the float-coercion model. -/
def parse_nat (cs : List Char) : Option Nat :=
  if cs ≠ [] ∧ cs.all Char.isDigit then
    some (cs.foldl (fun n c => 10 * n + (c.toNat - 48)) 0)
  else Option.none

/-- Surrounding whitespace stripped from a character list, modelling the
whitespace tolerance of Python float coercion. -/
def strip_ws (cs : List Char) : List Char :=
  ((cs.dropWhile Char.isWhitespace).reverse.dropWhile Char.isWhitespace).reverse

/-- Unsigned decimal numeral with an optional fractional part: digits,
optionally followed by a dot and further digits (at least one digit overall,
a second dot is malformed). -/
def parse_unsigned (body : List Char) : Option ℚ :=
  match body.span (fun c => c != '.') with
  | (intPart, rest) =>
    match rest with
    | [] => (parse_nat intPart).map (fun n => (n : ℚ))
    | _ :: fracPart =>
        if fracPart.contains '.' then Option.none
        else if intPart = [] ∧ fracPart = [] then Option.none
        else
          let ip := if intPart = [] then some 0 else parse_nat intPart
          let fp := if fracPart = [] then some 0 else parse_nat fracPart
          match ip, fp with
          | some i, some f =>
              some ((i : ℚ) + (f : ℚ) / (10 : ℚ) ^ fracPart.length)
          | _, _ => Option.none

/-- Modelled from the spec: the Python built-in `float()` coercion applied to
a string (the "type coercion" of § 7) — accepts an optionally signed decimal
numeral with an optional fractional part, after stripping surrounding
whitespace; yields `none` where Python raises `ValueError`. -/
def parse_float (s : String) : Option ℚ :=
  let cs := strip_ws s.toList
  let sign : ℚ := if cs.headD ' ' = '-' then -1 else 1
  let body := if cs.headD ' ' = '-' ∨ cs.headD ' ' = '+' then cs.tail else cs
  (parse_unsigned body).map (fun q => sign * q)

/-- Python `float()` on a `float | str | None` value: a float coerces to
itself, a string is parsed, `None` raises `TypeError` (modelled as `none`). -/
def float_of (v : PyVal) : Option ℚ :=
  match v with
  | .num x => some x
  | .str s => parse_float s
  | .none => Option.none

/-- Python `str()` of a `float | str | None` value, as used by the formatter
fallback. A rational stands in for the float repr; only the string case is
reachable from the fallback. -/
def py_str (v : PyVal) : String :=
  match v with
  | .num x => toString x
  | .str s => s
  | .none => "None"

/-- Digits of a natural number, most significant first. -/
def nat_digits (n : Nat) : List Char :=
  (toString n).toList

/-- Insert thousands separators into a digit run, grouping by three from the
right (Python `,` format spec). -/
def group_thousands (ds : List Char) : List Char :=
  let r := ds.reverse
  let rec go : List Char → List Char
    | a :: b :: c :: rest =>
        if rest = [] then [a, b, c] else a :: b :: c :: ',' :: go rest
    | cs => cs
  (go r).reverse

/-- Fixed-point decimal rendering of a rational with the given number of
decimal places (round half away from zero) and optional thousands grouping:
the model of Python `f"{x:,.Nf}"` and `f"{x:.Nf}"`. -/
def fmt_fixed (x : ℚ) (decimals : Nat) (grouped : Bool) : String :=
  let scaled : Int := (x.num.natAbs * 10 ^ decimals + x.den / 2) / x.den
  let intPart := scaled.toNat / 10 ^ decimals
  let fracPart := scaled.toNat % 10 ^ decimals
  let sign := if x < 0 ∧ scaled ≠ 0 then "-" else ""
  let intStr :=
    if grouped then String.mk (group_thousands (nat_digits intPart))
    else toString intPart
  if decimals = 0 then sign ++ intStr
  else
    let fracStr := toString fracPart
    let padded := String.mk (List.replicate (decimals - fracStr.length) '0')
      ++ fracStr
    sign ++ intStr ++ "." ++ padded

/-- formatters.py `fmt_number`: "N/A" for None; otherwise coerce with
`float()` and render `f"{v:,.{decimals}f}"`, falling back to `str(value)`
when the coercion raises. -/
def fmt_number (value : PyVal) (decimals : Nat) : String :=
  match value with
  | .none => "N/A"
  | v =>
      match float_of v with
      | some x => fmt_fixed x decimals true
      | Option.none => py_str v

/-- formatters.py `fmt_ratio`: "N/A" for None; otherwise coerce with
`float()` and render `f"{v:.1f}x"`, falling back to `str(value)` when the
coercion raises. -/
def fmt_ratio (value : PyVal) : String :=
  match value with
  | .none => "N/A"
  | v =>
      match float_of v with
      | some x => fmt_fixed x 1 false ++ "x"
      | Option.none => py_str v

/-- Modelled from the spec: overall coverage as the weighted average — the
sum of per-field populated counts over the sum of per-field totals, times
100, and 0 when the summed total is zero. Stated separately from
renderers.py `_overall_coverage` to compare the two. -/
def _overall_coverage_spec (coverage : List FieldCoverage) : ℚ :=
  if (coverage.map (fun fc => fc.total)).sum = 0 then 0
  else ((coverage.map (fun fc => fc.count)).sum : ℚ) /
    ((coverage.map (fun fc => fc.total)).sum : ℚ) * 100

/-- Modelled from the spec: three-tier fallback symbol resolution — exact
match on the ticker, fuzzy match on the company name, fuzzy match on the
ticker; a tier whose query is empty is skipped; the first tier yielding a
result wins; when every tier fails the original ticker string is returned
unchanged. Stated separately from tradingview.py `resolve_tv_symbol` to
compare the two. -/
def resolve_tv_symbol_from_spec (scan : ScanOracle)
    (symbol equity_name : String) (mics : Option String) : String :=
  let markets := _mics_to_tv_markets mics
  let tier := fun (field query operation : String) =>
    if query = "" then Option.none else scan field query operation markets
  (((tier "name" symbol "equal").orElse (fun _ =>
      tier "description" equity_name "match")).orElse (fun _ =>
      tier "name" symbol "match")).getD symbol

/-- Modelled from the spec: the group of equities belonging to one sector —
the records whose sector equals `s` (records with a null sector belong to no
group). Stated separately from `_group_by_sector` to compare the two. -/
def sector_group (equities : List CanonicalEquity) (s : String) :
    List CanonicalEquity :=
  equities.filter (fun eq => decide (eq.financials.sector = some s))

/-- Mean coverage of each column of a percentages matrix (column count taken
from the first row), used to state the column-ordering property of the
sector heatmap. -/
def column_means (rows : List (List ℚ)) : List ℚ :=
  (List.range (rows.headD []).length).map (fun c =>
    _mean (rows.map (fun row => row.getD c 0)))

/-- A financials record with every field absent, for concrete check inputs. -/
def emptyFin : Financials :=
  ⟨Option.none, Option.none, Option.none, Option.none, Option.none,
   Option.none, Option.none, Option.none, Option.none, Option.none,
   Option.none, Option.none, Option.none, Option.none, Option.none,
   Option.none, Option.none, Option.none, Option.none, Option.none,
   Option.none, Option.none, Option.none, Option.none, Option.none,
   Option.none, Option.none, Option.none, Option.none, Option.none,
   Option.none⟩

/-- An identity record with every field absent, for concrete check inputs. -/
def emptyId : Identity :=
  ⟨Option.none, Option.none, Option.none, Option.none, Option.none,
   Option.none, Option.none⟩

/-- An equity with every field absent. -/
def eq_empty : CanonicalEquity := ⟨emptyId, emptyFin, Option.none⟩

/-- An equity with last price 100 and 52-week range [50, 90]. -/
def eq_price_100 : CanonicalEquity :=
  ⟨emptyId,
   { emptyFin with
       last_price := some 100
       fifty_two_week_min := some 50
       fifty_two_week_max := some 90 },
   Option.none⟩

/-- An equity with last price 94 and 52-week range [50, 90]. -/
def eq_price_94 : CanonicalEquity :=
  ⟨emptyId,
   { emptyFin with
       last_price := some 94
       fifty_two_week_min := some 50
       fifty_two_week_max := some 90 },
   Option.none⟩

/-- An equity held 60% by insiders and 50% by institutions. -/
def eq_holdings : CanonicalEquity :=
  ⟨emptyId,
   { emptyFin with
       held_insiders := some (6 / 10)
       held_institutions := some (5 / 10) },
   Option.none⟩

/-- An equity with a last price but no market cap. -/
def eq_price_only : CanonicalEquity :=
  ⟨emptyId, { emptyFin with last_price := some 10 }, Option.none⟩

/-- An equity in sector "Tech" with a last price recorded. -/
def eq_tech : CanonicalEquity :=
  ⟨emptyId, { emptyFin with sector := some "Tech", last_price := some 10 },
   Option.none⟩

/-- An equity in sector "Energy" with no other field recorded. -/
def eq_energy : CanonicalEquity :=
  ⟨emptyId, { emptyFin with sector := some "Energy" }, Option.none⟩

/-- A count/total percentage (0 when the total is 0) lies in [0, 100]
whenever the count is at most the total. -/
lemma pct_bounds (c t : Nat) (h : c ≤ t) :
    0 ≤ (if t = 0 then (0 : ℚ) else (c : ℚ) / t * 100) ∧
    (if t = 0 then (0 : ℚ) else (c : ℚ) / t * 100) ≤ 100 := by
  by_cases ht : t = 0
  · simp [ht]
  · have htq : (0 : ℚ) < t := by
      exact_mod_cast Nat.pos_of_ne_zero ht
    have hct : (c : ℚ) ≤ (t : ℚ) := by exact_mod_cast h
    have hdiv : (c : ℚ) / t ≤ 1 := (div_le_one htq).mpr hct
    have hnn : 0 ≤ (c : ℚ) / t := div_nonneg (by positivity) htq.le
    rw [if_neg ht]
    exact ⟨by nlinarith, by nlinarith⟩

/-- Every finding in the three check batteries is a `_finding` over the full
equity list with total the list length. -/
lemma finding_mem_shape (equities : List CanonicalEquity) :
    ∀ f ∈ run_cross_field_checks equities ++ run_ratio_checks equities ++
      run_plausibility_checks equities,
      ∃ d p, f = _finding d equities equities.length p := by
  intro f hf
  simp only [run_cross_field_checks, run_ratio_checks,
    run_plausibility_checks, List.mem_append, List.mem_cons,
    List.mem_singleton, List.not_mem_nil, or_false, or_assoc] at hf
  rcases hf with rfl | rfl | rfl | rfl | rfl | rfl | rfl | rfl | rfl | rfl |
    rfl | rfl | rfl | rfl | rfl <;> exact ⟨_, _, rfl⟩

/-- C1: for every list of equities, every per-field coverage statistic and
every consistency finding over that list has count at most total (total
being the list length), and every derived coverage or affected percentage
(count/total*100, or 0 when total is 0) lies in [0, 100]. -/
theorem coverage_and_finding_bounds :
    ∀ (equities : List CanonicalEquity) (group : String)
      (fields : List (String × String)),
    (∀ fc ∈ _compute_coverage equities group fields,
        fc.count ≤ fc.total ∧ fc.total = equities.length) ∧
    (∀ p ∈ _build_coverage_dataframe (_compute_coverage equities group fields),
        0 ≤ p.2 ∧ p.2 ≤ 100) ∧
    (∀ f ∈ run_cross_field_checks equities ++ run_ratio_checks equities ++
        run_plausibility_checks equities,
        f.count ≤ f.total ∧ f.total = equities.length) ∧
    (∀ p ∈ _build_consistency_dataframe (run_cross_field_checks equities ++
        run_ratio_checks equities ++ run_plausibility_checks equities),
        0 ≤ p.2 ∧ p.2 ≤ 100) ∧
    (∀ attr : String,
        0 ≤ _field_coverage_pct equities attr equities.length ∧
        _field_coverage_pct equities attr equities.length ≤ 100) := by
  intro equities group fields
  refine ⟨?_, ?_, ?_, ?_, ?_⟩
  · intro fc hfc
    simp only [_compute_coverage, List.mem_map] at hfc
    obtain ⟨a, _, h⟩ := hfc
    subst h
    exact ⟨List.countP_le_length _, rfl⟩
  · intro p hp
    simp only [_build_coverage_dataframe, _compute_coverage, List.map_map,
      List.mem_map] at hp
    obtain ⟨a, _, h⟩ := hp
    subst h
    exact pct_bounds _ _ (List.countP_le_length _)
  · intro f hf
    obtain ⟨d, pred, rfl⟩ := finding_mem_shape equities f hf
    exact ⟨List.countP_le_length _, rfl⟩
  · intro p hp
    simp only [_build_consistency_dataframe, List.mem_map] at hp
    obtain ⟨f, hf, h⟩ := hp
    subst h
    obtain ⟨d, pred, rfl⟩ := finding_mem_shape equities f hf
    exact pct_bounds _ _ (List.countP_le_length _)
  · intro attr
    unfold _field_coverage_pct
    exact pct_bounds _ _ (List.countP_le_length _)

/-- Witness for C1 at a concrete one-equity list: the "Last Price" coverage
entry has count 1 ≤ total 1, and the "Price recorded without market cap"
finding has count 1 ≤ total 1 with total the list length. -/
theorem coverage_and_finding_bounds_witness :
    ((⟨"Last Price", 1, 1⟩ : FieldCoverage).count ≤
        (⟨"Last Price", 1, 1⟩ : FieldCoverage).total ∧
      (⟨"Last Price", 1, 1⟩ : FieldCoverage).total =
        [eq_price_only].length) ∧
    ((⟨"Price recorded without market cap", 1, 1⟩ :
        ConsistencyFinding).count ≤
      (⟨"Price recorded without market cap", 1, 1⟩ :
        ConsistencyFinding).total ∧
      (⟨"Price recorded without market cap", 1, 1⟩ :
        ConsistencyFinding).total = [eq_price_only].length) :=
  ⟨(coverage_and_finding_bounds [eq_price_only] "financials"
      [("last_price", "Last Price")]).1 ⟨"Last Price", 1, 1⟩ (by decide),
   (coverage_and_finding_bounds [eq_price_only] "financials"
      [("last_price", "Last Price")]).2.2.1
      ⟨"Price recorded without market cap", 1, 1⟩ (by decide)⟩

/-- C2: the overall coverage percentage equals the sum of per-field counts
over the sum of per-field totals, times 100 (0 when the summed total is 0):
the weighted average. On the coverage list [(count 1, total 1),
(count 0, total 100)] it equals 100/101 while the arithmetic mean of the
per-field percentages is 50, so the two disagree. -/
theorem overall_coverage_weighted :
    (∀ coverage : List FieldCoverage,
        _overall_coverage coverage = _overall_coverage_spec coverage) ∧
    _overall_coverage [⟨"a", 1, 1⟩, ⟨"b", 0, 100⟩] = 100 / 101 ∧
    _mean ((_build_coverage_dataframe
        [⟨"a", 1, 1⟩, ⟨"b", 0, 100⟩]).map (fun p => p.2)) = 50 ∧
    _overall_coverage [⟨"a", 1, 1⟩, ⟨"b", 0, 100⟩] ≠
      _mean ((_build_coverage_dataframe
        [⟨"a", 1, 1⟩, ⟨"b", 0, 100⟩]).map (fun p => p.2)) := by
  refine ⟨fun coverage => by
      simp [_overall_coverage, _overall_coverage_spec, Function.comp_def],
    ?_, ?_, ?_⟩
  · norm_num [_overall_coverage]
  · norm_num [_mean, _build_coverage_dataframe]
  · norm_num [_overall_coverage, _mean, _build_coverage_dataframe]

set_option maxHeartbeats 1600000 in
/-- C3: coverage is computed over the fixed ordered field lists (7 identity
fields, 31 financial fields); for every equity list, the coverage entry of
each field counts exactly the records whose field is non-null, with total the
list length, and the displayed percentage is count/total*100 (0 when total
is 0). -/
theorem coverage_fixed_field_lists :
    identity_fields.length = 7 ∧ financial_fields.length = 31 ∧
    (∀ fc : FieldCoverage, _build_coverage_dataframe [fc] =
        [(fc.label, if fc.total = 0 then (0 : ℚ)
          else (fc.count : ℚ) / fc.total * 100)]) ∧
    ∀ equities : List CanonicalEquity,
      _compute_coverage equities "identity" identity_fields =
        [⟨"Name", (equities.filter
            (fun eq => eq.identity.name.isSome)).length, equities.length⟩,
         ⟨"Symbol", (equities.filter
            (fun eq => eq.identity.symbol.isSome)).length, equities.length⟩,
         ⟨"FIGI", (equities.filter
            (fun eq => eq.identity.share_class_figi.isSome)).length,
            equities.length⟩,
         ⟨"ISIN", (equities.filter
            (fun eq => eq.identity.isin.isSome)).length, equities.length⟩,
         ⟨"CUSIP", (equities.filter
            (fun eq => eq.identity.cusip.isSome)).length, equities.length⟩,
         ⟨"CIK", (equities.filter
            (fun eq => eq.identity.cik.isSome)).length, equities.length⟩,
         ⟨"LEI", (equities.filter
            (fun eq => eq.identity.lei.isSome)).length, equities.length⟩] ∧
      _compute_coverage equities "financials" financial_fields =
        [⟨"MICs", (equities.filter
            (fun eq => eq.financials.mics.isSome)).length, equities.length⟩,
         ⟨"Currency", (equities.filter
            (fun eq => eq.financials.currency.isSome)).length,
            equities.length⟩,
         ⟨"Last Price", (equities.filter
            (fun eq => eq.financials.last_price.isSome)).length,
            equities.length⟩,
         ⟨"Market Cap", (equities.filter
            (fun eq => eq.financials.market_cap.isSome)).length,
            equities.length⟩,
         ⟨"52W Min", (equities.filter
            (fun eq => eq.financials.fifty_two_week_min.isSome)).length,
            equities.length⟩,
         ⟨"52W Max", (equities.filter
            (fun eq => eq.financials.fifty_two_week_max.isSome)).length,
            equities.length⟩,
         ⟨"Dividend Yield", (equities.filter
            (fun eq => eq.financials.dividend_yield.isSome)).length,
            equities.length⟩,
         ⟨"Market Volume", (equities.filter
            (fun eq => eq.financials.market_volume.isSome)).length,
            equities.length⟩,
         ⟨"Held Insiders", (equities.filter
            (fun eq => eq.financials.held_insiders.isSome)).length,
            equities.length⟩,
         ⟨"Held Institutions", (equities.filter
            (fun eq => eq.financials.held_institutions.isSome)).length,
            equities.length⟩,
         ⟨"Short Interest", (equities.filter
            (fun eq => eq.financials.short_interest.isSome)).length,
            equities.length⟩,
         ⟨"Share Float", (equities.filter
            (fun eq => eq.financials.share_float.isSome)).length,
            equities.length⟩,
         ⟨"Shares Outstanding", (equities.filter
            (fun eq => eq.financials.shares_outstanding.isSome)).length,
            equities.length⟩,
         ⟨"Revenue/Share", (equities.filter
            (fun eq => eq.financials.revenue_per_share.isSome)).length,
            equities.length⟩,
         ⟨"Profit Margin", (equities.filter
            (fun eq => eq.financials.profit_margin.isSome)).length,
            equities.length⟩,
         ⟨"Gross Margin", (equities.filter
            (fun eq => eq.financials.gross_margin.isSome)).length,
            equities.length⟩,
         ⟨"Operating Margin", (equities.filter
            (fun eq => eq.financials.operating_margin.isSome)).length,
            equities.length⟩,
         ⟨"Free Cash Flow", (equities.filter
            (fun eq => eq.financials.free_cash_flow.isSome)).length,
            equities.length⟩,
         ⟨"Operating Cash Flow", (equities.filter
            (fun eq => eq.financials.operating_cash_flow.isSome)).length,
            equities.length⟩,
         ⟨"ROE", (equities.filter
            (fun eq => eq.financials.return_on_equity.isSome)).length,
            equities.length⟩,
         ⟨"ROA", (equities.filter
            (fun eq => eq.financials.return_on_assets.isSome)).length,
            equities.length⟩,
         ⟨"1Y Performance", (equities.filter
            (fun eq => eq.financials.performance_1_year.isSome)).length,
            equities.length⟩,
         ⟨"Total Debt", (equities.filter
            (fun eq => eq.financials.total_debt.isSome)).length,
            equities.length⟩,
         ⟨"Revenue", (equities.filter
            (fun eq => eq.financials.revenue.isSome)).length,
            equities.length⟩,
         ⟨"EBITDA", (equities.filter
            (fun eq => eq.financials.ebitda.isSome)).length,
            equities.length⟩,
         ⟨"Trailing P/E", (equities.filter
            (fun eq => eq.financials.trailing_pe.isSome)).length,
            equities.length⟩,
         ⟨"Price/Book", (equities.filter
            (fun eq => eq.financials.price_to_book.isSome)).length,
            equities.length⟩,
         ⟨"Trailing EPS", (equities.filter
            (fun eq => eq.financials.trailing_eps.isSome)).length,
            equities.length⟩,
         ⟨"Analyst Rating", (equities.filter
            (fun eq => eq.financials.analyst_rating.isSome)).length,
            equities.length⟩,
         ⟨"Industry", (equities.filter
            (fun eq => eq.financials.industry.isSome)).length,
            equities.length⟩,
         ⟨"Sector", (equities.filter
            (fun eq => eq.financials.sector.isSome)).length,
            equities.length⟩] := by
  refine ⟨rfl, rfl, fun fc => rfl, fun equities => ⟨?_, ?_⟩⟩
  · simp [_compute_coverage, identity_fields, _count_populated,
      List.countP_eq_length_filter, group_has, idHas]
  · simp [_compute_coverage, financial_fields, _count_populated,
      List.countP_eq_length_filter, group_has, finHas]

/-- C4: the price-outside-52-week-range check flags an equity iff last price,
52-week min and 52-week max are all present and the price is below the min or
above the max times 1.05 (5% tolerance above the max only); a record with
price 100, min 50, max 90 is flagged (100 > 94.5), while the same record
with price 94 is not. -/
theorem price_outside_range_characterisation :
    (∀ eq : CanonicalEquity,
        _price_outside_range eq = true ↔
          ∃ price min_val max_val : ℚ,
            eq.financials.last_price = some price ∧
            eq.financials.fifty_two_week_min = some min_val ∧
            eq.financials.fifty_two_week_max = some max_val ∧
            (price < min_val ∨ price > max_val * (1.05 : ℚ))) ∧
    _price_outside_range eq_price_100 = true ∧
    _price_outside_range eq_price_94 = false := by
  refine ⟨?_,
    by norm_num [_price_outside_range, eq_price_100, emptyFin],
    by norm_num [_price_outside_range, eq_price_94, emptyFin]⟩
  intro eq
  unfold _price_outside_range
  rcases hp : eq.financials.last_price with _ | price <;>
    rcases hmin : eq.financials.fifty_two_week_min with _ | min_val <;>
    rcases hmax : eq.financials.fifty_two_week_max with _ | max_val <;>
    simp

/-- Witness for C4: the characterisation applied to the record with price
100 and range [50, 90] yields its witnessing values. -/
theorem price_outside_range_characterisation_witness :
    ∃ price min_val max_val : ℚ,
      eq_price_100.financials.last_price = some price ∧
      eq_price_100.financials.fifty_two_week_min = some min_val ∧
      eq_price_100.financials.fifty_two_week_max = some max_val ∧
      (price < min_val ∨ price > max_val * (1.05 : ℚ)) :=
  (price_outside_range_characterisation.1 eq_price_100).mp
    price_outside_range_characterisation.2.1

/-- C5: the holdings-exceed-100% check flags an equity iff both held-insiders
and held-institutions are present and their sum exceeds 1.05; a record with
insiders 0.6 and institutions 0.5 (sum 1.1) is flagged. -/
theorem holdings_exceed_characterisation :
    (∀ eq : CanonicalEquity,
        _holdings_exceed eq = true ↔
          ∃ insiders institutions : ℚ,
            eq.financials.held_insiders = some insiders ∧
            eq.financials.held_institutions = some institutions ∧
            insiders + institutions > (1.05 : ℚ)) ∧
    _holdings_exceed eq_holdings = true := by
  refine ⟨?_, by norm_num [_holdings_exceed, eq_holdings, emptyFin]⟩
  intro eq
  unfold _holdings_exceed
  rcases hi : eq.financials.held_insiders with _ | insiders <;>
    rcases hins : eq.financials.held_institutions with _ | institutions <;>
    simp

/-- Witness for C5: the characterisation applied to the record with insiders
0.6 and institutions 0.5 yields its witnessing values. -/
theorem holdings_exceed_characterisation_witness :
    ∃ insiders institutions : ℚ,
      eq_holdings.financials.held_insiders = some insiders ∧
      eq_holdings.financials.held_institutions = some institutions ∧
      insiders + institutions > (1.05 : ℚ) :=
  (holdings_exceed_characterisation.1 eq_holdings).mp
    holdings_exceed_characterisation.2

/-- C6: every ratio-ordering and range-plausibility predicate in the check
battery evaluates to false on a record missing an operand it requires (a
missing operand means "check does not apply", not a violation; for the
disjunctive ROE/ROA check each disjunct requires its own operand, so the
check is false when both are missing), while the explicitly paired presence
checks do count records with a missing field: the price-without-market-cap
finding counts a record having a price but no market cap. -/
theorem missing_operand_not_violation :
    (∀ eq : CanonicalEquity,
      (eq.financials.profit_margin = Option.none ∨
          eq.financials.gross_margin = Option.none →
        _profit_exceeds_gross eq = false) ∧
      (eq.financials.operating_margin = Option.none ∨
          eq.financials.gross_margin = Option.none →
        _operating_exceeds_gross eq = false) ∧
      (eq.financials.fifty_two_week_min = Option.none ∨
          eq.financials.fifty_two_week_max = Option.none →
        _has_inverted_range eq = false) ∧
      (eq.financials.last_price = Option.none ∨
          eq.financials.fifty_two_week_min = Option.none ∨
          eq.financials.fifty_two_week_max = Option.none →
        _price_outside_range eq = false) ∧
      (eq.financials.dividend_yield = Option.none →
        _dividend_yield_extreme eq = false) ∧
      (eq.financials.trailing_pe = Option.none →
        _has_extreme_pe eq = false) ∧
      (eq.financials.held_insiders = Option.none ∨
          eq.financials.held_institutions = Option.none →
        _holdings_exceed eq = false) ∧
      (eq.financials.return_on_equity = Option.none ∧
          eq.financials.return_on_assets = Option.none →
        _has_extreme_return eq = false)) ∧
    (run_cross_field_checks [eq_price_only]).getD 0 ⟨"", 0, 0⟩ =
      ⟨"Price recorded without market cap", 1, 1⟩ := by
  refine ⟨?_, by decide⟩
  intro eq
  refine ⟨?_, ?_, ?_, ?_, ?_, ?_, ?_, ?_⟩
  · intro h
    unfold _profit_exceeds_gross
    rcases h with h | h <;> rw [h] <;> rcases eq.financials.profit_margin <;>
      rcases eq.financials.gross_margin <;> simp
  · intro h
    unfold _operating_exceeds_gross
    rcases h with h | h <;> rw [h] <;>
      rcases eq.financials.operating_margin <;>
      rcases eq.financials.gross_margin <;> simp
  · intro h
    unfold _has_inverted_range
    rcases h with h | h <;> rw [h] <;>
      rcases eq.financials.fifty_two_week_min <;>
      rcases eq.financials.fifty_two_week_max <;> simp
  · intro h
    unfold _price_outside_range
    rcases h with h | h | h <;> rw [h] <;>
      rcases eq.financials.last_price <;>
      rcases eq.financials.fifty_two_week_min <;>
      rcases eq.financials.fifty_two_week_max <;> simp
  · intro h
    unfold _dividend_yield_extreme
    rw [h]
  · intro h
    unfold _has_extreme_pe
    rw [h]
  · intro h
    unfold _holdings_exceed
    rcases h with h | h <;> rw [h] <;>
      rcases eq.financials.held_insiders <;>
      rcases eq.financials.held_institutions <;> simp
  · intro h
    unfold _has_extreme_return
    rw [h.1, h.2]

/-- Witness for C6: on the all-absent record, the profit-margin,
price-range, holdings and ROE/ROA predicates all evaluate to false. -/
theorem missing_operand_not_violation_witness :
    _profit_exceeds_gross eq_empty = false ∧
    _price_outside_range eq_empty = false ∧
    _holdings_exceed eq_empty = false ∧
    _has_extreme_return eq_empty = false :=
  ⟨(missing_operand_not_violation.1 eq_empty).1 (Or.inl rfl),
   (missing_operand_not_violation.1 eq_empty).2.2.2.1 (Or.inl rfl),
   (missing_operand_not_violation.1 eq_empty).2.2.2.2.2.2.1 (Or.inl rfl),
   (missing_operand_not_violation.1 eq_empty).2.2.2.2.2.2.2 ⟨rfl, rfl⟩⟩

/-- The resolve loop performs at most one scanner call per search tier. -/
lemma resolve_scan_count_le_length (scan : ScanOracle) (markets : List String)
    (searches : List (String × String × String)) :
    resolve_scan_count scan markets searches ≤ searches.length := by
  induction searches with
  | nil => simp [resolve_scan_count]
  | cons t rest ih =>
      obtain ⟨f, q, op⟩ := t
      simp only [resolve_scan_count, List.length_cons]
      by_cases hq : q = ""
      · rw [if_pos hq]; omega
      · rw [if_neg hq]
        cases hsc : scan f q op markets <;> simp [hsc] <;> omega

/-- When every scanner call fails, the resolve loop falls through all tiers
and returns the fallback symbol. -/
lemma resolve_loop_all_none (scan : ScanOracle) (markets : List String)
    (h : ∀ f q op ms, scan f q op ms = Option.none)
    (searches : List (String × String × String)) (symbol : String) :
    resolve_loop scan markets searches symbol = symbol := by
  induction searches with
  | nil => rfl
  | cons t rest ih =>
      obtain ⟨f, q, op⟩ := t
      simp only [resolve_loop]
      by_cases hq : q = ""
      · rw [if_pos hq]; exact ih
      · rw [if_neg hq, h]; exact ih

/-- C8: symbol resolution walks the three search tiers in fixed order (exact
ticker match, fuzzy name match, fuzzy ticker match), skipping a tier whose
query is empty, returning the first tier result, treating a failed tier
(oracle `none`) as no result, performing at most three scanner calls, and
returning the original ticker unchanged when every tier fails. -/
theorem resolve_tv_symbol_tiers :
    (∀ (scan : ScanOracle) (symbol equity_name : String)
        (mics : Option String),
        resolve_tv_symbol scan symbol equity_name mics =
          resolve_tv_symbol_from_spec scan symbol equity_name mics) ∧
    (∀ (scan : ScanOracle) (symbol equity_name : String)
        (mics : Option String),
        resolve_scan_count scan (_mics_to_tv_markets mics)
          [("name", symbol, "equal"), ("description", equity_name, "match"),
           ("name", symbol, "match")] ≤ 3) ∧
    (∀ (scan : ScanOracle) (symbol equity_name : String)
        (mics : Option String),
        (∀ f q op ms, scan f q op ms = Option.none) →
        resolve_tv_symbol scan symbol equity_name mics = symbol) := by
  refine ⟨?_, ?_, ?_⟩
  · intro scan symbol equity_name mics
    simp only [resolve_tv_symbol, resolve_tv_symbol_from_spec]
    by_cases hs : symbol = "" <;> by_cases hn : equity_name = "" <;>
      rcases h1 : scan "name" symbol "equal" (_mics_to_tv_markets mics)
        with _ | r1 <;>
      rcases h2 : scan "description" equity_name "match"
        (_mics_to_tv_markets mics) with _ | r2 <;>
      rcases h3 : scan "name" symbol "match" (_mics_to_tv_markets mics)
        with _ | r3 <;>
      simp [resolve_loop, hs, hn, h1, h2, h3, Option.orElse]
  · intro scan symbol equity_name mics
    exact resolve_scan_count_le_length scan (_mics_to_tv_markets mics) _
  · intro scan symbol equity_name mics h
    exact resolve_loop_all_none scan (_mics_to_tv_markets mics) h _ symbol

/-- Witness for C8: with an oracle that always fails, resolving "AAPL"
returns "AAPL" unchanged. -/
theorem resolve_tv_symbol_tiers_witness :
    resolve_tv_symbol (fun _ _ _ _ => Option.none) "AAPL" "Apple Inc"
      (some "XNAS") = "AAPL" :=
  resolve_tv_symbol_tiers.2.2 (fun _ _ _ _ => Option.none) "AAPL" "Apple Inc"
    (some "XNAS") (fun _ _ _ _ => rfl)

/-- C9: the number and ratio formatters never fail — on any input whose
numeric coercion fails they return the stringified raw value, and on None
they return "N/A". -/
theorem formatter_coercion_fallback :
    (∀ (s : String) (d : Nat), parse_float s = Option.none →
        fmt_number (PyVal.str s) d = s ∧ fmt_ratio (PyVal.str s) = s) ∧
    (∀ d : Nat, fmt_number PyVal.none d = "N/A") ∧
    fmt_ratio PyVal.none = "N/A" := by
  refine ⟨?_, fun d => rfl, rfl⟩
  intro s d h
  constructor
  · simp [fmt_number, float_of, h, py_str]
  · simp [fmt_ratio, float_of, h, py_str]

/-- Witness for C9: coercion of the string "n/a" fails, and both formatters
return it unchanged. -/
theorem formatter_coercion_fallback_witness :
    parse_float "n/a" = Option.none ∧
    fmt_number (PyVal.str "n/a") 2 = "n/a" ∧
    fmt_ratio (PyVal.str "n/a") = "n/a" := by
  have h : parse_float "n/a" = Option.none := by decide
  exact ⟨h, (formatter_coercion_fallback.1 "n/a" 2 h).1,
    (formatter_coercion_fallback.1 "n/a" 2 h).2⟩

/-- C10: when no equity qualifies (no positive market cap, or no records to
score), the market-cap and completeness distributions are still defined and
return count 0 with median and mean 0, the median/mean computations being
guarded to non-empty value lists. -/
theorem empty_distributions_defined :
    ∀ equities : List CanonicalEquity,
      ((∀ eq ∈ equities, ∀ mc : ℚ,
          eq.financials.market_cap = some mc → mc ≤ 0) →
        load_market_cap_distribution equities = ⟨0, 0, 0, []⟩) ∧
      (equities = [] →
        load_completeness_distribution equities = ⟨0, 0, 0, []⟩) ∧
      ((load_market_cap_distribution equities).values = [] →
        load_market_cap_distribution equities = ⟨0, 0, 0, []⟩) ∧
      ((load_completeness_distribution equities).values = [] →
        load_completeness_distribution equities = ⟨0, 0, 0, []⟩) := by
  intro equities
  have hmc : _extract_market_caps equities = [] →
      load_market_cap_distribution equities = ⟨0, 0, 0, []⟩ := by
    intro h
    simp [load_market_cap_distribution, h]
  have hcs : _compute_completeness_scores equities = [] →
      load_completeness_distribution equities = ⟨0, 0, 0, []⟩ := by
    intro h
    simp [load_completeness_distribution, h]
  refine ⟨?_, ?_, hmc, hcs⟩
  · intro h
    apply hmc
    rw [_extract_market_caps, List.filterMap_eq_nil_iff]
    intro eq heq
    cases hcap : eq.financials.market_cap with
    | none => rfl
    | some mc =>
        have : ¬ (0 < mc) := not_lt.mpr (h eq heq mc hcap)
        simp [this]
  · intro h
    subst h
    exact hcs rfl

/-- Witness for C10: on a one-equity list with no market cap, the market-cap
distribution is the zero record, and on the empty list the completeness
distribution is the zero record. -/
theorem empty_distributions_defined_witness :
    load_market_cap_distribution [eq_energy] = ⟨0, 0, 0, []⟩ ∧
    load_completeness_distribution [] = ⟨0, 0, 0, []⟩ :=
  ⟨(empty_distributions_defined [eq_energy]).1 (by
      intro e he mc hcap
      simp only [List.mem_singleton] at he
      subst he
      simp [eq_energy, emptyFin] at hcap),
   (empty_distributions_defined []).2.1 rfl⟩

/-- Appending an equity under key `s` updates exactly the `s` entry,
creating it when absent. -/
lemma lookup_insert_self (acc : List (String × List CanonicalEquity))
    (s : String) (eq : CanonicalEquity) :
    (insert_grouped acc s eq).lookup s =
      some (((acc.lookup s).getD []) ++ [eq]) := by
  induction acc with
  | nil => simp [insert_grouped, List.lookup]
  | cons p rest ih =>
      obtain ⟨k, g⟩ := p
      by_cases hk : k = s
      · subst hk
        simp [insert_grouped, List.lookup]
      · have hsk : (s == k) = false := by
          simp [Ne.symm hk]
        simp [insert_grouped, hk, List.lookup, hsk, ih]

/-- Appending an equity under key `s` leaves every other key's entry
unchanged. -/
lemma lookup_insert_ne (acc : List (String × List CanonicalEquity))
    (s t : String) (eq : CanonicalEquity) (h : t ≠ s) :
    (insert_grouped acc s eq).lookup t = acc.lookup t := by
  have hts : (t == s) = false := by simp [h]
  induction acc with
  | nil => simp [insert_grouped, List.lookup, hts]
  | cons p rest ih =>
      obtain ⟨k, g⟩ := p
      by_cases hk : k = s
      · subst hk
        simp [insert_grouped, List.lookup, hts]
      · by_cases htk : t = k
        · subst htk
          simp [insert_grouped, hk, List.lookup]
        · have h1 : (t == k) = false := by simp [htk]
          simp [insert_grouped, hk, List.lookup, h1, ih]

/-- Combination of an existing optional group with the matches contributed
by the remaining equities, describing one step of the grouping fold. -/
def opt_extend (o : Option (List CanonicalEquity))
    (f : List CanonicalEquity) : Option (List CanonicalEquity) :=
  match o with
  | some g => some (g ++ f)
  | Option.none => if f = [] then Option.none else some f

/-- The grouping fold's entry for key `s` extends the accumulator's entry by
exactly the equities whose sector is `s`, in order. -/
lemma lookup_foldl_group (l : List CanonicalEquity) :
    ∀ (acc : List (String × List CanonicalEquity)) (s : String),
    (l.foldl
      (fun grouped eq =>
        match eq.financials.sector with
        | some t => insert_grouped grouped t eq
        | Option.none => grouped)
      acc).lookup s =
      opt_extend (acc.lookup s)
        (l.filter (fun eq => decide (eq.financials.sector = some s))) := by
  induction l with
  | nil =>
      intro acc s
      cases h : acc.lookup s <;> simp [opt_extend, h]
  | cons e l ih =>
      intro acc s
      rw [List.foldl_cons]
      cases hsec : e.financials.sector with
      | none =>
          rw [ih]
          simp [List.filter_cons, hsec]
      | some t =>
          by_cases hts : t = s
          · subst hts
            rw [ih, lookup_insert_self, List.filter_cons]
            simp [hsec]
            cases h : acc.lookup t <;>
              simp [opt_extend, h, List.append_assoc]
          · rw [ih, lookup_insert_ne _ _ _ _ (Ne.symm hts),
              List.filter_cons]
            simp [hsec, hts]

/-- The `_group_by_sector` entry for key `s` is exactly the sector group of
`s` (absent when that group is empty). -/
lemma group_by_sector_lookup (equities : List CanonicalEquity) (s : String) :
    (_group_by_sector equities).lookup s =
      (if sector_group equities s = [] then Option.none
       else some (sector_group equities s)) := by
  rw [_group_by_sector, lookup_foldl_group]
  simp [opt_extend, sector_group, List.lookup]

/-- A key occurs in an association list iff its lookup succeeds. -/
lemma lookup_isSome_iff {β : Type} (L : List (String × β)) (s : String) :
    (L.lookup s).isSome = true ↔ s ∈ L.map Prod.fst := by
  induction L with
  | nil => simp [List.lookup]
  | cons p rest ih =>
      obtain ⟨k, b⟩ := p
      by_cases hk : s = k
      · subst hk
        simp [List.lookup]
      · have h1 : (s == k) = false := by simp [hk]
        simp [List.lookup, h1, hk, ih]

/-- In an association list with distinct keys, every member pair is found by
lookup on its key. -/
lemma lookup_of_mem_of_nodup {β : Type} (L : List (String × β)) (s : String)
    (g : β) (hnd : (L.map Prod.fst).Nodup) (hm : (s, g) ∈ L) :
    L.lookup s = some g := by
  induction L with
  | nil => cases hm
  | cons p rest ih =>
      obtain ⟨k, b⟩ := p
      rcases List.mem_cons.mp hm with heq | hmem
      · cases heq
        simp [List.lookup]
      · have hk : s ≠ k := by
          intro h
          subst h
          have : s ∈ rest.map Prod.fst :=
            List.mem_map.mpr ⟨(s, g), hmem, rfl⟩
          exact (List.nodup_cons.mp hnd).1 this
        have h1 : (s == k) = false := by simp [hk]
        simp only [List.lookup, h1]
        exact ih (List.nodup_cons.mp hnd).2 hmem

/-- Inserting under key `s` either leaves the key list unchanged (key
present) or appends `s` (key absent). -/
lemma keys_insert (acc : List (String × List CanonicalEquity)) (s : String)
    (eq : CanonicalEquity) :
    (insert_grouped acc s eq).map Prod.fst =
      (if s ∈ acc.map Prod.fst then acc.map Prod.fst
       else acc.map Prod.fst ++ [s]) := by
  induction acc with
  | nil => simp [insert_grouped]
  | cons p rest ih =>
      obtain ⟨k, g⟩ := p
      by_cases hk : k = s
      · subst hk
        simp [insert_grouped]
      · have hsk : s ≠ k := Ne.symm hk
        by_cases hmem : s ∈ rest.map Prod.fst <;>
          simp [insert_grouped, hk, ih, hsk, hmem]

/-- The grouping fold preserves distinctness of the key list. -/
lemma nodup_keys_foldl (l : List CanonicalEquity) :
    ∀ acc : List (String × List CanonicalEquity),
    (acc.map Prod.fst).Nodup →
    ((l.foldl
      (fun grouped eq =>
        match eq.financials.sector with
        | some t => insert_grouped grouped t eq
        | Option.none => grouped)
      acc).map Prod.fst).Nodup := by
  induction l with
  | nil => intro acc h; simpa using h
  | cons e l ih =>
      intro acc h
      rw [List.foldl_cons]
      cases hsec : e.financials.sector with
      | none => exact ih acc h
      | some t =>
          apply ih
          rw [keys_insert]
          by_cases hmem : t ∈ acc.map Prod.fst
          · simpa [hmem] using h
          · rw [if_neg hmem]
            simp [List.nodup_append, h, hmem]

/-- The keys of `_group_by_sector` are distinct. -/
lemma nodup_keys_group_by_sector (equities : List CanonicalEquity) :
    ((_group_by_sector equities).map Prod.fst).Nodup :=
  nodup_keys_foldl equities [] (by simp)

/-- Every entry of `_group_by_sector` is exactly the (non-empty) sector
group of its key. -/
lemma mem_group_by_sector (equities : List CanonicalEquity) (s : String)
    (g : List CanonicalEquity) (hm : (s, g) ∈ _group_by_sector equities) :
    g = sector_group equities s ∧ g ≠ [] := by
  have h := lookup_of_mem_of_nodup _ s g
    (nodup_keys_group_by_sector equities) hm
  rw [group_by_sector_lookup] at h
  by_cases he : sector_group equities s = []
  · rw [if_pos he] at h
    cases h
  · rw [if_neg he] at h
    cases h
    exact ⟨rfl, he⟩

/-- A key occurs among the grouped sectors iff some equity has that
sector. -/
lemma mem_keys_group_by_sector (equities : List CanonicalEquity)
    (s : String) :
    s ∈ (_group_by_sector equities).map Prod.fst ↔
      ∃ eq, eq ∈ equities ∧ eq.financials.sector = some s := by
  rw [← lookup_isSome_iff, group_by_sector_lookup]
  by_cases he : sector_group equities s = []
  · rw [if_pos he]
    simp only [Option.isSome_none, Bool.false_eq_true, false_iff]
    intro ⟨eq, hmem, hsec⟩
    have : eq ∈ sector_group equities s := by
      simp [sector_group, List.mem_filter, hmem, hsec]
    rw [he] at this
    cases this
  · rw [if_neg he]
    simp only [Option.isSome_some, true_iff]
    obtain ⟨eq, hmem⟩ := List.exists_mem_of_ne_nil _ he
    have := (List.mem_filter.mp hmem)
    exact ⟨eq, this.1, by simpa using this.2⟩

/-- Indexing a mapped list below its length commutes with the map. -/
lemma getD_map_lt {α β : Type} (l : List α) (f : α → β) (i : Nat)
    (h : i < l.length) (d : β) (d' : α) :
    (l.map f).getD i d = f (l.getD i d') := by
  rw [List.getD_eq_getElem?_getD, List.getD_eq_getElem?_getD,
    List.getElem?_map]
  rw [List.getElem?_eq_getElem h]
  simp

/-- Mapping an index function over the index range of a list recovers the
map of the list itself. -/
lemma range_map_getD {α β : Type} (l : List α) (f : α → β) (d : α) :
    (List.range l.length).map (fun c => f (l.getD c d)) = l.map f := by
  induction l with
  | nil => simp
  | cons a l ih =>
      rw [List.length_cons, List.range_succ_eq_map]
      simp only [List.map_cons, List.map_map, List.getD_cons_zero]
      refine congrArg (f a :: ·) ?_
      have : ((fun c => f ((a :: l).getD c d)) ∘ Nat.succ) =
          (fun c => f (l.getD c d)) := by
        funext c
        simp [Function.comp, List.getD_cons_succ]
      rw [this, ih]

/-- Reindexing by the full index range recovers the list. -/
lemma range_map_getD_id (l : List ℚ) (d : ℚ) :
    (List.range l.length).map (fun c => l.getD c d) = l := by
  have := range_map_getD l id d
  simpa using this

/-- The `_mean` of a list is invariant under permutation. -/
lemma mean_perm {l₁ l₂ : List ℚ} (h : l₁.Perm l₂) : _mean l₁ = _mean l₂ := by
  unfold _mean
  rw [h.sum_eq, h.length_eq]
  cases l₂ with
  | nil =>
      have : l₁ = [] := List.Perm.eq_nil h
      simp [this]
  | cons a l =>
      have : l₁ ≠ [] := by
        intro hn
        rw [hn] at h
        exact List.cons_ne_nil a l (List.Perm.nil_eq h).symm
      simp [this, List.isEmpty_iff]

/-- Reindexing a row by any permutation of its index range preserves its
`_mean`. -/
lemma mean_reindex (row : List ℚ) (cols : List Nat)
    (h : cols.Perm (List.range row.length)) :
    _mean (cols.map (fun c => row.getD c 0)) = _mean row := by
  have hperm : (cols.map (fun c => row.getD c 0)).Perm
      ((List.range row.length).map (fun c => row.getD c 0)) :=
    h.map _
  rw [mean_perm hperm, range_map_getD_id]

/-- The (sector, coverage row) pairs built by `load_sector_field_coverage`
before ranking, named for the proofs below. -/
def sector_rows_of (equities : List CanonicalEquity) :
    List (String × List ℚ) :=
  (_group_by_sector equities).map
    (fun p => (p.1, _sector_coverage_row p.2 heatmap_fields))

/-- The sector rows ranked ascending by mean row coverage, named for the
proofs below. -/
def ranked_of (equities : List CanonicalEquity) : List (String × List ℚ) :=
  (sector_rows_of equities).mergeSort
    (fun a b => decide (_mean a.2 ≤ _mean b.2))

/-- The column order chosen by `load_sector_field_coverage`, named for the
proofs below. -/
def col_order_of (equities : List CanonicalEquity) : List Nat :=
  _rank_columns_by_coverage ((ranked_of equities).map (fun p => p.2))

/-- Decomposition of `load_sector_field_coverage` through the named
intermediate stages. -/
lemma load_sector_field_coverage_eq (equities : List CanonicalEquity) :
    load_sector_field_coverage equities =
      ⟨(ranked_of equities).map (fun p => p.1),
       (col_order_of equities).map
         (fun i => (heatmap_fields.getD i ("", "")).2),
       (ranked_of equities).map
         (fun p => (col_order_of equities).map (fun i => p.2.getD i 0))⟩ :=
  rfl

/-- The ranked sector rows are a permutation of the unranked ones. -/
lemma ranked_of_perm (equities : List CanonicalEquity) :
    (ranked_of equities).Perm (sector_rows_of equities) :=
  List.mergeSort_perm _ _

/-- The ranked sector rows are pairwise ascending in mean row coverage. -/
lemma ranked_of_pairwise (equities : List CanonicalEquity) :
    (ranked_of equities).Pairwise (fun a b => _mean a.2 ≤ _mean b.2) := by
  have h := @List.sorted_mergeSort (String × List ℚ)
    (fun a b => decide (_mean a.2 ≤ _mean b.2))
    (fun a b c hab hbc =>
      decide_eq_true
        (le_trans (of_decide_eq_true hab) (of_decide_eq_true hbc)))
    (fun a b => by
      simp only [Bool.or_eq_true, decide_eq_true_eq]
      exact le_total _ _)
    (sector_rows_of equities)
  exact h.imp (fun hab => of_decide_eq_true hab)

/-- Every ranked pair's row is the coverage row of its sector's group. -/
lemma mem_ranked_row (equities : List CanonicalEquity)
    (p : String × List ℚ) (hp : p ∈ ranked_of equities) :
    p.2 = _sector_coverage_row (sector_group equities p.1) heatmap_fields := by
  have hp' : p ∈ sector_rows_of equities :=
    (ranked_of_perm equities).mem_iff.mp hp
  obtain ⟨q, hq, hqe⟩ := List.mem_map.mp hp'
  have hq' : (q.1, q.2) ∈ _group_by_sector equities := by
    simpa using hq
  have := mem_group_by_sector equities q.1 q.2 hq'
  rw [← hqe]
  simp [this.1]

/-- Every ranked pair's row has one entry per heatmap field. -/
lemma mem_ranked_len (equities : List CanonicalEquity)
    (p : String × List ℚ) (hp : p ∈ ranked_of equities) :
    p.2.length = heatmap_fields.length := by
  rw [mem_ranked_row equities p hp]
  simp [_sector_coverage_row]

/-- An in-range `getD` access yields a member of the list. -/
lemma getD_mem {α : Type} (l : List α) (i : Nat) (d : α)
    (h : i < l.length) : l.getD i d ∈ l := by
  rw [List.getD_eq_getElem?_getD, List.getElem?_eq_getElem h]
  simp [List.getElem_mem]

/-- Sorting an enumerated list and projecting the indices yields a
permutation of the index range. -/
lemma map_fst_mergeSort_enum_perm {α : Type} (l : List α)
    (le : Nat × α → Nat × α → Bool) :
    ((l.enum.mergeSort le).map Prod.fst).Perm (List.range l.length) := by
  have h := (List.mergeSort_perm l.enum le).map Prod.fst
  rwa [List.enum_map_fst] at h

/-- Stable descending sort by second component yields pairwise descending
second components. -/
lemma sorted_desc_map_snd {α : Type} [LinearOrder α] (l : List (Nat × α)) :
    ((l.mergeSort (fun a b => decide (b.2 ≤ a.2))).map Prod.snd).Sorted
      (fun a b => a ≥ b) := by
  have h := @List.sorted_mergeSort (Nat × α)
    (fun a b => decide (b.2 ≤ a.2))
    (fun a b c hab hbc =>
      decide_eq_true
        (le_trans (of_decide_eq_true hbc) (of_decide_eq_true hab)))
    (fun a b => by
      simp only [Bool.or_eq_true, decide_eq_true_eq]
      exact le_total _ _)
    l
  exact (h.imp (fun hab => of_decide_eq_true hab)).map Prod.snd
    (fun a b hab => hab)

/-- The ranked column order is a permutation of the index range of the first
row. -/
lemma rank_columns_perm (r0 : List ℚ) (rest : List (List ℚ)) :
    (_rank_columns_by_coverage (r0 :: rest)).Perm (List.range r0.length) := by
  have h := map_fst_mergeSort_enum_perm
    ((List.range r0.length).map (fun c =>
      ((r0 :: rest).map (fun row => row.getD c 0)).sum /
        (((r0 :: rest).length : Nat) : ℚ)))
    (fun a b => decide (b.2 ≤ a.2))
  simp only [List.length_map, List.length_range] at h
  exact h

/-- Abstract form of the reordered-column-means computation: reordering the
matrix columns by the sorted index list makes the output column means read
off the sorted (index, mean) pairs. -/
lemma column_means_reorder (rows : List (List ℚ)) (r0 : List ℚ)
    (rest : List (List ℚ)) (hr : rows = r0 :: rest) (cm : List ℚ)
    (hcm : cm = (List.range r0.length).map (fun c =>
      (rows.map (fun row => row.getD c 0)).sum / (rows.length : ℚ)))
    (sorted : List (Nat × ℚ))
    (hs : sorted = cm.enum.mergeSort (fun a b => decide (b.2 ≤ a.2))) :
    column_means (rows.map (fun row =>
        (sorted.map (fun p => p.1)).map (fun i => row.getD i 0))) =
      sorted.map Prod.snd := by
  have hhead : ((rows.map (fun row =>
      (sorted.map (fun p => p.1)).map (fun i => row.getD i 0))).headD []) =
      (sorted.map (fun p => p.1)).map (fun i => r0.getD i 0) := by
    rw [hr]
    rfl
  rw [column_means, hhead]
  have hlen2 : ((sorted.map (fun p => p.1)).map
      (fun i => r0.getD i 0)).length = sorted.length := by
    simp
  rw [hlen2,
    ← range_map_getD sorted Prod.snd (((0 : Nat), (0 : ℚ)) : Nat × ℚ)]
  apply List.map_congr_left
  intro c hc
  have hc' : c < sorted.length := List.mem_range.mp hc
  have hq_mem : sorted.getD c ((0 : Nat), (0 : ℚ)) ∈ sorted :=
    getD_mem _ _ _ hc'
  have hq_enum : ((sorted.getD c ((0 : Nat), (0 : ℚ))).1,
      (sorted.getD c ((0 : Nat), (0 : ℚ))).2) ∈ cm.enum := by
    have hperm : sorted.Perm cm.enum := by
      rw [hs]
      exact List.mergeSort_perm _ _
    simpa using hperm.mem_iff.mp hq_mem
  obtain ⟨hq1, hq2⟩ := List.mem_enum hq_enum
  rw [List.map_map]
  have hpoint : ∀ row : List ℚ,
      ((sorted.map (fun p => p.1)).map (fun i => row.getD i 0)).getD c 0 =
      row.getD ((sorted.getD c ((0 : Nat), (0 : ℚ))).1) 0 := by
    intro row
    rw [List.map_map]
    exact getD_map_lt sorted (fun p => row.getD p.1 0) c hc' 0
      ((0 : Nat), (0 : ℚ))
  have hmaps : rows.map ((fun row : List ℚ => row.getD c 0) ∘
      (fun row => (sorted.map (fun p => p.1)).map (fun i => row.getD i 0))) =
      rows.map (fun row =>
        row.getD ((sorted.getD c ((0 : Nat), (0 : ℚ))).1) 0) :=
    List.map_congr_left (fun row _ => hpoint row)
  rw [hmaps]
  have hmean : _mean (rows.map (fun row =>
      row.getD ((sorted.getD c ((0 : Nat), (0 : ℚ))).1) 0)) =
      (rows.map (fun row =>
        row.getD ((sorted.getD c ((0 : Nat), (0 : ℚ))).1) 0)).sum /
        (rows.length : ℚ) := by
    rw [hr]
    simp [_mean]
  rw [hmean, hq2]
  subst hcm
  rw [List.getElem_map, List.getElem_range]

/-- The column means of the matrix produced by reordering a non-empty rows
list with `_rank_columns_by_coverage` are the sorted (index, mean) pairs'
mean components. -/
lemma rank_columns_column_means (r0 : List ℚ) (rest : List (List ℚ)) :
    column_means ((r0 :: rest).map (fun row =>
        (_rank_columns_by_coverage (r0 :: rest)).map
          (fun i => row.getD i 0))) =
      (((List.range r0.length).map (fun c =>
          ((r0 :: rest).map (fun row => row.getD c 0)).sum /
            (((r0 :: rest).length : Nat) : ℚ))).enum.mergeSort
        (fun a b => decide (b.2 ≤ a.2))).map Prod.snd :=
  column_means_reorder (r0 :: rest) r0 rest rfl _ rfl _ rfl

/-- C7: the sector heatmap groups equities by sector with null-sector records
excluded (a sector appears iff some equity carries it), computes per-field
coverage percentages within each sector group, and orders the sector rows
ascending by mean row coverage and the field columns descending by mean
column coverage; the output matrix is, row by row, the sector group's
per-field coverage percentages read through one fixed column permutation. -/
theorem sector_heatmap_properties :
    ∀ equities : List CanonicalEquity,
    (∀ s, s ∈ (load_sector_field_coverage equities).sectors ↔
        ∃ eq, eq ∈ equities ∧ eq.financials.sector = some s) ∧
    ((load_sector_field_coverage equities).percentages.map _mean).Sorted
      (fun a b => a ≤ b) ∧
    (column_means
      (load_sector_field_coverage equities).percentages).Sorted
      (fun a b => a ≥ b) ∧
    ((load_sector_field_coverage equities).sectors = [] ∨
      ∃ cols : List Nat,
        cols.Perm (List.range heatmap_fields.length) ∧
        (load_sector_field_coverage equities).fields =
          cols.map (fun c => (heatmap_fields.getD c ("", "")).2) ∧
        (load_sector_field_coverage equities).percentages =
          (load_sector_field_coverage equities).sectors.map (fun s =>
            cols.map (fun c =>
              _field_coverage_pct (sector_group equities s)
                (heatmap_fields.getD c ("", "")).1
                (sector_group equities s).length))) := by
  intro equities
  refine ⟨?_, ?_, ?_, ?_⟩
  · intro s
    rw [load_sector_field_coverage_eq]
    show s ∈ (ranked_of equities).map (fun p => p.1) ↔ _
    rw [((ranked_of_perm equities).map (fun p => p.1)).mem_iff,
      sector_rows_of, List.map_map]
    exact mem_keys_group_by_sector equities s
  · rw [load_sector_field_coverage_eq]
    show (((ranked_of equities).map (fun p : String × List ℚ =>
      (col_order_of equities).map (fun i => p.2.getD i 0))).map _mean).Sorted
      (fun a b => a ≤ b)
    cases hre : ranked_of equities with
    | nil => simp
    | cons r0 rest =>
        have hperm_cols : (col_order_of equities).Perm
            (List.range heatmap_fields.length) := by
          rw [col_order_of, hre, List.map_cons]
          have h := rank_columns_perm r0.2 (rest.map (fun p => p.2))
          rwa [mem_ranked_len equities r0
            (by rw [hre]; exact List.mem_cons_self r0 rest)] at h
        rw [← hre, List.map_map]
        have hcong : (ranked_of equities).map (_mean ∘ (fun p =>
            (col_order_of equities).map (fun i => p.2.getD i 0))) =
            (ranked_of equities).map (fun p => _mean p.2) := by
          apply List.map_congr_left
          intro p hp
          show _mean ((col_order_of equities).map
            (fun i => p.2.getD i 0)) = _mean p.2
          apply mean_reindex
          rw [mem_ranked_len equities p hp]
          exact hperm_cols
        rw [hcong]
        exact (ranked_of_pairwise equities).map
          (fun p : String × List ℚ => _mean p.2) (fun a b hab => hab)
  · rw [load_sector_field_coverage_eq]
    show (column_means ((ranked_of equities).map
      (fun p : String × List ℚ =>
        (col_order_of equities).map (fun i => p.2.getD i 0)))).Sorted
      (fun a b => a ≥ b)
    cases hre : ranked_of equities with
    | nil => simp [column_means]
    | cons r0 rest =>
        have hrows : (r0 :: rest).map (fun p : String × List ℚ =>
            (col_order_of equities).map (fun i => p.2.getD i 0)) =
            (r0.2 :: rest.map (fun p : String × List ℚ => p.2)).map
              (fun row => (col_order_of equities).map
                (fun i => row.getD i 0)) := by
          have h1 : (r0.2 :: rest.map (fun p : String × List ℚ => p.2)) =
              (r0 :: rest).map (fun p : String × List ℚ => p.2) := rfl
          rw [h1, List.map_map]
          rfl
        have hco : col_order_of equities =
            _rank_columns_by_coverage
              (r0.2 :: rest.map (fun p : String × List ℚ => p.2)) := by
          rw [col_order_of, hre, List.map_cons]
        rw [hrows, hco, rank_columns_column_means]
        exact sorted_desc_map_snd _
  · cases hre : ranked_of equities with
    | nil =>
        left
        rw [load_sector_field_coverage_eq]
        show (ranked_of equities).map (fun p => p.1) = []
        rw [hre]
        rfl
    | cons r0 rest =>
        right
        have hperm_cols : (col_order_of equities).Perm
            (List.range heatmap_fields.length) := by
          rw [col_order_of, hre, List.map_cons]
          have h := rank_columns_perm r0.2 (rest.map (fun p => p.2))
          rwa [mem_ranked_len equities r0
            (by rw [hre]; exact List.mem_cons_self r0 rest)] at h
        refine ⟨col_order_of equities, hperm_cols, ?_, ?_⟩
        · rw [load_sector_field_coverage_eq]
        · rw [load_sector_field_coverage_eq]
          show (ranked_of equities).map (fun p =>
              (col_order_of equities).map (fun i => p.2.getD i 0)) =
            ((ranked_of equities).map (fun p => p.1)).map (fun s =>
              (col_order_of equities).map (fun c =>
                _field_coverage_pct (sector_group equities s)
                  (heatmap_fields.getD c ("", "")).1
                  (sector_group equities s).length))
          rw [List.map_map]
          apply List.map_congr_left
          intro p hp
          show (col_order_of equities).map (fun i => p.2.getD i 0) =
            (col_order_of equities).map (fun c =>
              _field_coverage_pct (sector_group equities p.1)
                (heatmap_fields.getD c ("", "")).1
                (sector_group equities p.1).length)
          apply List.map_congr_left
          intro i hi
          have hin : i < heatmap_fields.length :=
            List.mem_range.mp (hperm_cols.mem_iff.mp hi)
          show p.2.getD i 0 = _
          rw [mem_ranked_row equities p hp, _sector_coverage_row]
          exact getD_map_lt heatmap_fields (fun q =>
            _field_coverage_pct (sector_group equities p.1) q.1
              (sector_group equities p.1).length) i hin 0 ("", "")

/-- Witness for C7: on a three-equity list with sectors Tech, Energy and a
null sector, "Tech" appears among the heatmap sectors. -/
theorem sector_heatmap_properties_witness :
    "Tech" ∈ (load_sector_field_coverage
      [eq_tech, eq_energy, eq_price_only]).sectors :=
  ((sector_heatmap_properties [eq_tech, eq_energy, eq_price_only]).1
    "Tech").mpr ⟨eq_tech, by simp, rfl⟩

end EquityScreener

